import Mathlib

/-
Verification of the quantfit pipeline of GAR (src/GAR/quantfit/quantfit_main.py).

The development embeds, in Lean:
  * the cell values of a pandas float series (finite rationals, NaN for a
    missing value, and the two infinities produced by division by zero);
  * the feature-transform columns built in run_quantfit (lines 342-353):
    identity, shift (Lagged), rolling mean (MVA), elementwise power, diff
    and pct_change, with the library semantics of the pandas calls the code
    makes (pct_change forward-fills the series first, since the code relies
    on the pandas default fill_method of pad);
  * the configuration validator check_parameters_quantfit (lines 189-277),
    with the workbook sheet list passed explicitly in place of the global
    workbook handle;
  * the synthesized regressor names of read_parameters_quantfit
    (lines 159-170) and the downstream key iteration of run_quantfit.

Halting behaviour of show_message(-, halt=True) is modelled from the spec:
a fatal ConfigurationError that stops processing; a non-halting
show_message only records its message.  Messages keep the static part of
the text built by the code; interpolated values are elided.
-/

/-- A cell of a pandas float64 series: a finite value, NaN (also the
missing-value marker) or an infinity. -/
inductive FVal where
  | fin (q : ℚ)
  | nan
  | inf
  | ninf
deriving DecidableEq

/-- Whether a cell is NaN, which pandas treats as missing. -/
def FVal.isNan : FVal → Bool
  | .nan => true
  | _ => false

/-- IEEE-754 addition on cells (no negative zero; 0 behaves as +0). -/
def FVal.add : FVal → FVal → FVal
  | .nan, _ => .nan
  | _, .nan => .nan
  | .fin a, .fin b => .fin (a + b)
  | .fin _, .inf => .inf
  | .fin _, .ninf => .ninf
  | .inf, .fin _ => .inf
  | .ninf, .fin _ => .ninf
  | .inf, .inf => .inf
  | .ninf, .ninf => .ninf
  | .inf, .ninf => .nan
  | .ninf, .inf => .nan

/-- IEEE-754 subtraction on cells. -/
def FVal.sub : FVal → FVal → FVal
  | .nan, _ => .nan
  | _, .nan => .nan
  | .fin a, .fin b => .fin (a - b)
  | .fin _, .inf => .ninf
  | .fin _, .ninf => .inf
  | .inf, .fin _ => .inf
  | .ninf, .fin _ => .ninf
  | .inf, .inf => .nan
  | .ninf, .ninf => .nan
  | .inf, .ninf => .inf
  | .ninf, .inf => .ninf

/-- IEEE-754 division on cells: a nonzero value divided by zero is a signed
infinity and 0/0 is NaN, as numpy and pandas produce. -/
def FVal.div : FVal → FVal → FVal
  | .nan, _ => .nan
  | _, .nan => .nan
  | .fin a, .fin b =>
      if b = 0 then (if a = 0 then .nan else if 0 < a then .inf else .ninf)
      else .fin (a / b)
  | .fin _, .inf => .fin 0
  | .fin _, .ninf => .fin 0
  | .inf, .fin b => if 0 ≤ b then .inf else .ninf
  | .ninf, .fin b => if 0 ≤ b then .ninf else .inf
  | .inf, .inf => .nan
  | .inf, .ninf => .nan
  | .ninf, .inf => .nan
  | .ninf, .ninf => .nan

/-- Elementwise integer power as numpy evaluates x ** k on a float series:
anything to the power 0 is 1 (including NaN), 0 to a negative power is
infinity, and otherwise finite bases use exact rational powers. -/
def FVal.powInt (x : FVal) (k : ℤ) : FVal :=
  if k = 0 then .fin 1 else
  match x with
  | .nan => .nan
  | .fin a => if a = 0 ∧ k < 0 then .inf else .fin (a ^ k)
  | .inf => if 0 < k then .inf else .fin 0
  | .ninf => if 0 < k then (if k % 2 = 0 then .inf else .ninf) else .fin 0

/-- Cell of a series at row t; rows outside the index read as NaN, the way a
pandas lookup of a shifted-out position surfaces as missing. -/
def seriesGet (x : List FVal) (t : ℕ) : FVal := x.getD t .nan

/-- The transform branch for the kind named None in the code (line 343):
df[reg_long] = df[reg_short], the column unchanged. -/
def identityCol (x : List FVal) : List FVal := x

/-- The Lagged branch (line 345): df[reg_short].shift(option).  Row t holds
the source value at row t - k when that row exists and NaN otherwise. -/
def shiftCol (k : ℤ) (x : List FVal) : List FVal :=
  (List.range x.length).map (fun (t : ℕ) =>
    if 0 ≤ (t : ℤ) - k then seriesGet x ((t : ℤ) - k).toNat else .nan)

/-- The Diff branch (line 351): df[reg_short].diff(option), which pandas
computes as the series minus its shift. -/
def diffCol (k : ℤ) (x : List FVal) : List FVal :=
  List.zipWith FVal.sub x (shiftCol k x)

/-- Forward fill from a running last value: the pandas fillna(method=pad)
step that pct_change applies to its input before dividing. -/
def ffillFrom : FVal → List FVal → List FVal
  | _, [] => []
  | last, v :: rest =>
      (if v.isNan then last else v) :: ffillFrom (if v.isNan then last else v) rest

/-- Forward fill of a whole series (leading missing cells stay missing). -/
def ffill (x : List FVal) : List FVal := ffillFrom .nan x

/-- The ChangeRate branch (line 353): df[reg_short].pct_change(option).
pandas (pre-2.0, as the append calls elsewhere in the file date the code)
forward-fills the series, divides it by its own shift and subtracts 1. -/
def pctChangeCol (k : ℤ) (x : List FVal) : List FVal :=
  (List.zipWith FVal.div (ffill x) (shiftCol k (ffill x))).map
    (fun v => FVal.sub v (.fin 1))

/-- The w trailing cells read by a rolling window ending at row t. -/
def windowVals (w : ℕ) (x : List FVal) (t : ℕ) : List FVal :=
  (List.range w).map (fun j => seriesGet x (t - j))

/-- The MVA branch (line 347): df[reg_short].rolling(window=option).mean().
With the pandas default min_periods = window, a row without w prior cells,
or whose window holds a missing cell, is missing; otherwise the mean. -/
def mvaCol (w : ℕ) (x : List FVal) : List FVal :=
  (List.range x.length).map (fun t =>
    if t + 1 < w then .nan
    else if (windowVals w x t).any FVal.isNan then .nan
    else FVal.div ((windowVals w x t).foldr FVal.add (.fin 0)) (.fin (w : ℚ)))

/-- The Power branch (line 349): df[reg_short] ** option, elementwise. -/
def powCol (k : ℤ) (x : List FVal) : List FVal :=
  x.map (fun v => FVal.powInt v k)

/-- A Python value read from the option cell of a regressor row: the cell
may be empty (None), a float, an int (only after normalization) or text.
The validator tests the value with type(option) != float. -/
inductive OptVal where
  | pynone
  | pyfloat (q : ℚ)
  | pyint (n : ℤ)
  | pystr (s : String)
deriving DecidableEq

/-- One regressor entry of dict_input_quantfit, holding the cells read from
columns B and D of the parameter sheet. -/
structure RegSpec where
  transform : String
  option : OptVal
deriving DecidableEq

/-- How check_parameters_quantfit stops: a fatal show_message(-, halt=True)
(modelled from the spec as a ConfigurationError) or the unhandled KeyError
of reading a key the dict does not hold. -/
inductive PyErr where
  | configError (msg : String)
  | keyError (key : String)
deriving DecidableEq

/-- dict_input_quantfit as prerun_quantfit hands it to the validator: each
field is the value under that key, or none when the key is absent.  For the
sheet entries the inner layer distinguishes an empty cell (Python None)
from a given sheet name. -/
structure ConfigDict where
  quantlist : Option (List ℚ)
  regressors : Option (List (String × RegSpec))
  sheet_input : Option (Option String)
  sheet_quantreg : Option (Option String)
  sheet_cond_quant : Option (Option String)
deriving DecidableEq

/-- Python int() on a float: truncation toward zero. -/
def pytrunc (q : ℚ) : ℤ := if 0 ≤ q then ⌊q⌋ else ⌈q⌉

/-- The keys prerun_quantfit passes to check_parameters_quantfit (line 97). -/
def keysQuantfit : List String :=
  ["quantlist", "regressors", "sheet_input", "sheet_quantreg", "sheet_cond_quant"]

/-- The reserved input sheets (line 200). -/
def input_sheets : List String :=
  ["Readme", "Input_parameters", "Partition_groups", "Data", "Processing_Log"]

/-- The quantile levels that must be present (line 213). -/
def necessary_vals : List ℚ := [1/10, 1/4, 1/2, 3/4, 9/10]

/-- The entries of the transform pulldown menu (line 227). -/
def transform_kinds : List String :=
  ["None", "Lagged", "MVA", "Power", "Diff", "ChangeRate"]

/-- The static text of line 209. -/
def msgQuantRange : String := "All values of quantlist must be between 0 and 1"

/-- The static text of line 216 (the offending level is elided). -/
def msgQuantMissing : String := "Value must be included in quantlist"

/-- The static text of line 228 (regressor and value elided). -/
def msgBadKind : String := "transform was not a valid option"

/-- The static text of line 234. -/
def msgNoneOption : String := "transform of None must not have option set"

/-- The static text of line 240. -/
def msgIntOption : String := "transform must have option of int"

/-- The loop over necessary_vals (lines 214-218): the first level missing
from the configured list halts. -/
def checkNecessaryVals (val : List ℚ) : List ℚ → Except PyErr Unit
  | [] => .ok ()
  | v :: rest =>
      if v ∈ val then checkNecessaryVals val rest
      else .error (.configError msgQuantMissing)

/-- The quantlist branch of the validator (lines 204-218): every level must
lie strictly between 0 and 1 and the five necessary levels must be present,
by exact membership. -/
def checkQuantlist (val : List ℚ) : Except PyErr Unit :=
  if val.all (fun q => 0 < q) ∧ val.all (fun q => q < 1) then
    checkNecessaryVals val necessary_vals
  else .error (.configError msgQuantRange)

/-- The body of the regressor loop (lines 222-244) for one entry: the
transform must come from the pulldown; None must carry no option; the five
other kinds need a float within 1E-5 of int(option), which is then written
back into the entry as that int. -/
def checkOneRegressor (spec : RegSpec) : Except PyErr RegSpec :=
  if spec.transform ∉ transform_kinds then
    .error (.configError msgBadKind)
  else if spec.transform ∈ ["None"] ∧ spec.option ≠ .pynone then
    .error (.configError msgNoneOption)
  else if spec.transform ∈ ["Lagged", "MVA", "Power", "Diff", "ChangeRate"] then
    match spec.option with
    | .pyfloat q =>
        if |(pytrunc q : ℚ) - q| > 1 / 100000 then
          .error (.configError msgIntOption)
        else .ok { spec with option := .pyint (pytrunc q) }
    | _ => .error (.configError msgIntOption)
  else .ok spec

/-- The regressor loop over the whole dict, in insertion order; the write
back of the normalized option mutates the entry in place, so the surviving
dict carries the updated entries. -/
def checkRegressors : List (String × RegSpec) → Except PyErr (List (String × RegSpec))
  | [] => .ok []
  | (name, spec) :: rest =>
      match checkOneRegressor spec with
      | .error e => .error e
      | .ok spec2 =>
          match checkRegressors rest with
          | .error e => .error e
          | .ok rest2 => .ok ((name, spec2) :: rest2)

/-- Whether the dict holds a key (the `key not in dict_input_quantfit` test
of line 196, over the five keys the validator receives). -/
def hasKey (d : ConfigDict) (key : String) : Bool :=
  if key = "quantlist" then d.quantlist.isSome
  else if key = "regressors" then d.regressors.isSome
  else if key = "sheet_input" then d.sheet_input.isSome
  else if key = "sheet_quantreg" then d.sheet_quantreg.isSome
  else if key = "sheet_cond_quant" then d.sheet_cond_quant.isSome
  else false

/-- The first loop of the validator (lines 194-198): a non-halting
show_message for every missing key, in key order. -/
def missingKeyMsgs (d : ConfigDict) : List String :=
  (keysQuantfit.filter (fun k => ¬ hasKey d k)).map
    (fun k => "key " ++ k ++ " not found in dict_input_quantfit")

/-- One pass of the second loop of the validator (lines 201-277) for one
key: the val = dict_input_quantfit[key] read raises KeyError when the key
is absent; then the per-key rules run, updating the dict where the code
writes defaults or normalized options.  wbSheets stands for the sheet
names of the workbook the code reads through the global wb. -/
def checkKey (wbSheets : List String) (d : ConfigDict) (key : String) :
    Except PyErr ConfigDict :=
  if key = "quantlist" then
    match d.quantlist with
    | none => .error (.keyError key)
    | some val =>
        match checkQuantlist val with
        | .error e => .error e
        | .ok _ => .ok d
  else if key = "regressors" then
    match d.regressors with
    | none => .error (.keyError key)
    | some val =>
        match checkRegressors val with
        | .error e => .error e
        | .ok val2 => .ok { d with regressors := some val2 }
  else if key = "sheet_input" then
    match d.sheet_input with
    | none => .error (.keyError key)
    | some val =>
        match val with
        | none =>
            if "Output_partitions" ∈ wbSheets then
              .ok { d with sheet_input := some (some "Output_partitions") }
            else .error (.configError "Input sheet for quantfit does not exist")
        | some _ => .ok d
  else if key = "sheet_quantreg" then
    match d.sheet_quantreg with
    | none => .error (.keyError key)
    | some val =>
        match val with
        | none => .ok { d with sheet_quantreg := some (some "Quant reg coefficients") }
        | some s =>
            if s ∈ input_sheets then
              .error (.configError "cannot be the same as necessary input sheet")
            else .ok d
  else if key = "sheet_cond_quant" then
    match d.sheet_cond_quant with
    | none => .error (.keyError key)
    | some val =>
        match val with
        | none => .ok { d with sheet_cond_quant := some (some "Conditional quantiles") }
        | some s =>
            if s ∈ input_sheets then
              .error (.configError "cannot be the same as necessary input sheet")
            else .ok d
  else .ok d

/-- The second loop of the validator over the keys in order, stopping at
the first halt or KeyError. -/
def checkKeys (wbSheets : List String) (d : ConfigDict) :
    List String → Except PyErr ConfigDict
  | [] => .ok d
  | k :: rest =>
      match checkKey wbSheets d k with
      | .error e => .error e
      | .ok d2 => checkKeys wbSheets d2 rest

/-- check_parameters_quantfit (lines 189-277): the non-halting messages of
the presence loop, and the outcome of the per-key loop - either the dict as
it stands after the in-place updates, or the error that stopped it. -/
def checkParametersQuantfit (wbSheets : List String) (d : ConfigDict) :
    List String × Except PyErr ConfigDict :=
  (missingKeyMsgs d, checkKeys wbSheets d keysQuantfit)

/-- Whether a validator outcome is a halt with a ConfigurationError. -/
def isConfigError {α : Type} : Except PyErr α → Bool
  | .error (.configError _) => true
  | _ => false

/-- The decimal digit character for d. -/
def digitChar (d : ℕ) : Char := Char.ofNat (48 + d)

/-- The numeric value of a decimal digit character. -/
def charDigit (c : Char) : ℕ := c.toNat - 48

/-- Decimal digits of n, most significant first, with explicit fuel (enough
fuel reproduces Python str on a nonnegative int). -/
def natStrGo : ℕ → ℕ → List Char
  | 0, _ => []
  | fuel + 1, n =>
      if n = 0 then [] else natStrGo fuel (n / 10) ++ [digitChar (n % 10)]

/-- Python str on a nonnegative int, as a list of characters. -/
def natStr (n : ℕ) : List Char := if n = 0 then ['0'] else natStrGo n n

/-- Reading a digit string back as a number (left inverse of natStr). -/
def natStrVal (l : List Char) : ℕ := l.foldl (fun acc c => 10 * acc + charDigit c) 0

/-- The key synthesized for the regressor at position i of the declaration
list (lines 167-170): regressor + str of _trans_ + str(iregressor) + str of
_ + transform. -/
def synthName (regressor : List Char) (i : ℕ) (transform : List Char) : List Char :=
  regressor ++ "_trans_".data ++ natStr i ++ "_".data ++ transform

/-- One declared regressor row of the parameter sheet: the series name from
column A, the transform from column B and the option from column D. -/
structure RegDecl where
  regressor : List Char
  transform : List Char
  option : OptVal
deriving DecidableEq

/-- Python dict assignment on an association list: an existing key keeps its
position and takes the new value, a new key goes to the end. -/
def dictInsert {α β : Type} [DecidableEq α] (k : α) (v : β) :
    List (α × β) → List (α × β)
  | [] => [(k, v)]
  | (k1, v1) :: rest =>
      if k1 = k then (k1, v) :: rest else (k1, v1) :: dictInsert k v rest

/-- The enumerate loop of read_parameters_quantfit (lines 159-170), filling
the regressors dict in declaration order; the value under each synthesized
key holds the transform and option cells. -/
def buildRegressorsAux (i : ℕ) (acc : List (List Char × (List Char × OptVal))) :
    List RegDecl → List (List Char × (List Char × OptVal))
  | [] => acc
  | d :: rest =>
      buildRegressorsAux (i + 1)
        (dictInsert (synthName d.regressor i d.transform) (d.transform, d.option) acc)
        rest

/-- The regressors dict built from the declared rows. -/
def buildRegressors (decls : List RegDecl) : List (List Char × (List Char × OptVal)) :=
  buildRegressorsAux 0 [] decls

/-- list(dict.keys()) as run_quantfit takes it (line 336): the keys in the
dict's insertion order. -/
def regressorKeys {β : Type} (d : List (List Char × β)) : List (List Char) :=
  d.map Prod.fst

/-- The synthesized names in declaration order, starting at ordinal i: the
order the spec calls the display and iteration order. -/
def declNames (i : ℕ) : List RegDecl → List (List Char)
  | [] => []
  | d :: rest => synthName d.regressor i d.transform :: declNames (i + 1) rest

/-- The transform pulldown entries as character lists. -/
def transform_kinds_chars : List (List Char) :=
  transform_kinds.map String.data

deriving instance DecidableEq for Except

section RatReducible

attribute [local semireducible] Rat.mul Rat.add Rat.sub Rat.inv

/-! ## Helper lemmas on the quantlist validation -/

lemma checkNecessaryVals_ok_iff (val need : List ℚ) :
    checkNecessaryVals val need = .ok () ↔ ∀ v ∈ need, v ∈ val := by
  induction need with
  | nil => simp [checkNecessaryVals]
  | cons v rest ih =>
      by_cases hv : v ∈ val
      · simp [checkNecessaryVals, hv, ih]
      · simp [checkNecessaryVals, hv]

lemma checkNecessaryVals_ok_or_configError (val need : List ℚ) :
    checkNecessaryVals val need = .ok () ∨
      isConfigError (checkNecessaryVals val need) = true := by
  induction need with
  | nil => left; rfl
  | cons v rest ih =>
      by_cases hv : v ∈ val
      · simpa [checkNecessaryVals, hv] using ih
      · right; simp [checkNecessaryVals, hv, isConfigError]

lemma checkQuantlist_ok_iff (l : List ℚ) :
    checkQuantlist l = .ok () ↔
      ((∀ q ∈ l, 0 < q ∧ q < 1) ∧ ∀ v ∈ necessary_vals, v ∈ l) := by
  unfold checkQuantlist
  by_cases h : (∀ q ∈ l, 0 < q) ∧ ∀ q ∈ l, q < 1
  · have hc : l.all (fun q => 0 < q) ∧ l.all (fun q => q < 1) := by
      simpa [List.all_eq_true] using h
    rw [if_pos hc, checkNecessaryVals_ok_iff]
    constructor
    · exact fun hn => ⟨fun q hq => ⟨h.1 q hq, h.2 q hq⟩, hn⟩
    · exact fun hb => hb.2
  · have hc : ¬ (l.all (fun q => 0 < q) ∧ l.all (fun q => q < 1)) := by
      simpa [List.all_eq_true] using h
    rw [if_neg hc]
    constructor
    · intro he; exact absurd he (by simp)
    · intro hb
      exact absurd ⟨fun q hq => (hb.1 q hq).1, fun q hq => (hb.1 q hq).2⟩ h

lemma checkQuantlist_ok_or_configError (l : List ℚ) :
    checkQuantlist l = .ok () ∨ isConfigError (checkQuantlist l) = true := by
  unfold checkQuantlist
  split
  · exact checkNecessaryVals_ok_or_configError l necessary_vals
  · right; rfl

/-- C1: for every configured quantile list, the quantlist validation of
check_parameters_quantfit succeeds iff every quantile lies strictly between
0 and 1 and all five canonical levels 0.10, 0.25, 0.50, 0.75, 0.90 are
present in the list; any violation halts with a ConfigurationError rather
than silently defaulting. -/
theorem quantlist_validation_iff (l : List ℚ) :
    (checkQuantlist l = .ok () ↔
      ((∀ q ∈ l, 0 < q ∧ q < 1) ∧ ∀ v ∈ necessary_vals, v ∈ l)) ∧
    (checkQuantlist l ≠ .ok () → isConfigError (checkQuantlist l) = true) :=
  ⟨checkQuantlist_ok_iff l,
   fun h => (checkQuantlist_ok_or_configError l).resolve_left h⟩

/-- C1 witness: the canonical list passes; the spec scenario list missing
0.90 halts with a ConfigurationError. -/
theorem quantlist_validation_iff_witness :
    checkQuantlist [1/10, 1/4, 1/2, 3/4, 9/10] = .ok () ∧
    isConfigError (checkQuantlist [1/10, 1/4, 1/2, 3/4]) = true :=
  ⟨(quantlist_validation_iff [1/10, 1/4, 1/2, 3/4, 9/10]).1.mpr (by decide),
   (quantlist_validation_iff [1/10, 1/4, 1/2, 3/4]).2 (by decide)⟩

/-- C10: membership of the five canonical levels is tested by exact
equality: a list whose entries all lie strictly in (0,1) but that holds no
entry exactly equal to 0.90 is rejected with a ConfigurationError, however
close an entry comes to 0.90. -/
theorem quantlist_no_tolerance (l : List ℚ)
    (hrange : ∀ q ∈ l, 0 < q ∧ q < 1) (h9 : (9/10 : ℚ) ∉ l) :
    isConfigError (checkQuantlist l) = true := by
  rcases checkQuantlist_ok_or_configError l with h | h
  · exact absurd (((checkQuantlist_ok_iff l).1 h).2 (9/10) (by decide)) h9
  · exact h

/-- C10 witness: 0.9000001 is within rounding distance of 0.90 and inside
(0,1), yet the list is rejected. -/
theorem quantlist_no_tolerance_witness :
    isConfigError (checkQuantlist [1/10, 1/4, 1/2, 3/4, 9000001/10000000]) = true :=
  quantlist_no_tolerance [1/10, 1/4, 1/2, 3/4, 9000001/10000000]
    (by decide) (by decide)

/-- C6: the per-regressor check halts with the invalid-transform
ConfigurationError exactly when the declared transform kind is outside the
six pulldown entries; for a kind among the six it never raises that error. -/
theorem transform_kind_validation (spec : RegSpec) :
    (spec.transform ∉ transform_kinds →
        checkOneRegressor spec = .error (.configError msgBadKind)) ∧
    (spec.transform ∈ transform_kinds →
        checkOneRegressor spec ≠ .error (.configError msgBadKind)) := by
  constructor
  · intro h; simp [checkOneRegressor, h]
  · intro h
    unfold checkOneRegressor
    rw [if_neg (by simpa using h)]
    split
    · simp [msgNoneOption, msgBadKind]
    · split
      · split
        · split
          · simp [msgIntOption, msgBadKind]
          · simp
        · simp [msgIntOption, msgBadKind]
      · simp

/-- C6 witness: a kind outside the pulldown halts; the kind None does not
raise the invalid-transform error. -/
theorem transform_kind_validation_witness :
    checkOneRegressor ⟨"Quadratic", .pynone⟩ = .error (.configError msgBadKind) ∧
    checkOneRegressor ⟨"None", .pynone⟩ ≠ .error (.configError msgBadKind) :=
  ⟨(transform_kind_validation ⟨"Quadratic", .pynone⟩).1 (by decide),
   (transform_kind_validation ⟨"None", .pynone⟩).2 (by decide)⟩

/-! ## Helper lemmas on series access -/

lemma seriesGet_range_map (n : ℕ) (f : ℕ → FVal) (t : ℕ) (h : t < n) :
    seriesGet ((List.range n).map f) t = f t := by
  simp [seriesGet, List.getD_eq_getElem?_getD, List.getElem?_map,
    List.getElem?_range, h]

lemma seriesGet_map_fin (q : List ℚ) (i : ℕ) (h : i < q.length) :
    seriesGet (q.map FVal.fin) i = .fin (q.getD i 0) := by
  simp [seriesGet, List.getD_eq_getElem?_getD, List.getElem?_map,
    List.getElem?_eq_getElem, h]

lemma shiftCol_get (k : ℤ) (x : List FVal) (t : ℕ) (h : t < x.length) :
    seriesGet (shiftCol k x) t =
      if 0 ≤ (t : ℤ) - k then seriesGet x ((t : ℤ) - k).toNat else .nan := by
  unfold shiftCol
  exact seriesGet_range_map _ _ _ h

lemma mvaCol_get (w : ℕ) (x : List FVal) (t : ℕ) (h : t < x.length) :
    seriesGet (mvaCol w x) t =
      if t + 1 < w then .nan
      else if (windowVals w x t).any FVal.isNan then .nan
      else FVal.div ((windowVals w x t).foldr FVal.add (.fin 0)) (.fin (w : ℚ)) := by
  unfold mvaCol
  exact seriesGet_range_map _ _ _ h

/-- C5: the Lagged transform with a non-negative lag k reads the source k
rows earlier when that row exists and is missing otherwise, and Lagged with
lag 0 coincides with the Identity transform. -/
theorem lagged_semantics (k : ℕ) (x : List FVal) :
    (∀ t, t < x.length →
        seriesGet (shiftCol (k : ℤ) x) t =
          if k ≤ t then seriesGet x (t - k) else FVal.nan) ∧
    shiftCol 0 x = identityCol x := by
  constructor
  · intro t ht
    rw [shiftCol_get _ _ _ ht]
    by_cases hk : k ≤ t
    · rw [if_pos (by omega), if_pos hk]
      congr 1
      omega
    · rw [if_neg (by omega), if_neg hk]
  · apply List.ext_getElem
    · simp [shiftCol, identityCol]
    · intro i h1 h2
      simp only [shiftCol, identityCol, List.getElem_map, List.getElem_range]
      rw [if_pos (by omega)]
      have hi : ((i : ℤ) - 0).toNat = i := by omega
      rw [hi]
      have h3 : i < x.length := by simpa [identityCol] using h2
      simp [identityCol, seriesGet, List.getD_eq_getElem?_getD,
        List.getElem?_eq_getElem h3]

/-- C5 witness: lag 1 on a two-row series reads the first row at row 1, and
lag 0 is the identity. -/
theorem lagged_semantics_witness :
    seriesGet (shiftCol 1 [FVal.fin 5, FVal.fin 7]) 1 = FVal.fin 5 ∧
    shiftCol 0 [FVal.fin 5, FVal.fin 7] = identityCol [FVal.fin 5, FVal.fin 7] := by
  refine ⟨?_, (lagged_semantics 0 [FVal.fin 5, FVal.fin 7]).2⟩
  have h := (lagged_semantics 1 [FVal.fin 5, FVal.fin 7]).1 1 (by decide)
  simpa using h

lemma FVal.div_fin_fin (a b : ℚ) (hb : b ≠ 0) :
    FVal.div (.fin a) (.fin b) = .fin (a / b) := by
  simp [FVal.div, hb]

lemma windowVals_three (x : List FVal) (t : ℕ) :
    windowVals 3 x t = [seriesGet x t, seriesGet x (t - 1), seriesGet x (t - 2)] := by
  have hr : List.range 3 = [0, 1, 2] := by decide
  simp [windowVals, hr]

/-- C7: a MovingAverage of window 3 over a 10-row series with no missing
values leaves the first 2 rows missing, and every later row holds the mean
of the 3 trailing source values. -/
theorem mva_window3_semantics (q : List ℚ) (h : q.length = 10) :
    seriesGet (mvaCol 3 (q.map FVal.fin)) 0 = FVal.nan ∧
    seriesGet (mvaCol 3 (q.map FVal.fin)) 1 = FVal.nan ∧
    ∀ t, 2 ≤ t → t < 10 →
      seriesGet (mvaCol 3 (q.map FVal.fin)) t =
        FVal.fin ((q.getD (t - 2) 0 + q.getD (t - 1) 0 + q.getD t 0) / 3) := by
  have hlen : (q.map FVal.fin).length = 10 := by simp [h]
  refine ⟨?_, ?_, ?_⟩
  · rw [mvaCol_get 3 _ 0 (by omega), if_pos (by norm_num)]
  · rw [mvaCol_get 3 _ 1 (by omega), if_pos (by norm_num)]
  · intro t h2 h10
    rw [mvaCol_get 3 _ t (by omega), if_neg (by omega), windowVals_three,
      seriesGet_map_fin q t (by omega), seriesGet_map_fin q (t - 1) (by omega),
      seriesGet_map_fin q (t - 2) (by omega)]
    rw [if_neg (by simp [FVal.isNan])]
    simp only [List.foldr_cons, List.foldr_nil, FVal.add]
    rw [FVal.div_fin_fin _ _ (by norm_num)]
    congr 1
    push_cast
    ring

/-- C7 witness: on the series 1..10 the first output row is missing and row
index 2 holds the trailing mean of the first three rows. -/
theorem mva_window3_semantics_witness :
    seriesGet (mvaCol 3 ([1, 2, 3, 4, 5, 6, 7, 8, 9, 10].map FVal.fin)) 0 =
      FVal.nan ∧
    seriesGet (mvaCol 3 ([1, 2, 3, 4, 5, 6, 7, 8, 9, 10].map FVal.fin)) 2 =
      FVal.fin ((([1, 2, 3, 4, 5, 6, 7, 8, 9, 10] : List ℚ).getD 0 0 +
        ([1, 2, 3, 4, 5, 6, 7, 8, 9, 10] : List ℚ).getD 1 0 +
        ([1, 2, 3, 4, 5, 6, 7, 8, 9, 10] : List ℚ).getD 2 0) / 3) :=
  ⟨(mva_window3_semantics [1, 2, 3, 4, 5, 6, 7, 8, 9, 10] (by simp)).1,
   by
     have h := (mva_window3_semantics [1, 2, 3, 4, 5, 6, 7, 8, 9, 10]
       (by simp)).2.2 2 (by norm_num) (by norm_num)
     simpa using h⟩

/-! ## Helper lemmas on the per-regressor option check -/

lemma checkOneRegressor_none (opt : OptVal) :
    checkOneRegressor ⟨"None", opt⟩ =
      if opt = .pynone then .ok ⟨"None", opt⟩
      else .error (.configError msgNoneOption) := by
  cases opt <;> simp [checkOneRegressor, transform_kinds]

lemma checkOneRegressor_five (tr : String)
    (htr : tr ∈ ["Lagged", "MVA", "Power", "Diff", "ChangeRate"]) (opt : OptVal) :
    checkOneRegressor ⟨tr, opt⟩ =
      match opt with
      | .pyfloat q =>
          if |(pytrunc q : ℚ) - q| > 1 / 100000 then
            .error (.configError msgIntOption)
          else .ok ⟨tr, .pyint (pytrunc q)⟩
      | _ => .error (.configError msgIntOption) := by
  have h1 : ¬ tr ∉ transform_kinds := by
    simp only [List.mem_cons, List.not_mem_nil, or_false] at htr
    rcases htr with rfl | rfl | rfl | rfl | rfl <;> simp [transform_kinds]
  have h2 : ¬ (tr ∈ ["None"] ∧ opt ≠ .pynone) := by
    rintro ⟨hm, -⟩
    simp only [List.mem_cons, List.not_mem_nil, or_false] at htr hm
    rcases htr with rfl | rfl | rfl | rfl | rfl <;> simp at hm
  rw [checkOneRegressor, if_neg h1, if_neg h2, if_pos htr]

/-- C2 counterexample: the option 2.999999 for a Lagged transform is within
1e-5 of the integer 3, yet the validator halts with a ConfigurationError,
because the code compares the option against int(option) = 2, its
truncation toward zero. -/
theorem lagged_near_int_option_rejected :
    checkOneRegressor ⟨"Lagged", .pyfloat (2999999 / 1000000)⟩ =
      .error (.configError msgIntOption) ∧
    |(3 : ℚ) - 2999999 / 1000000| ≤ 1 / 100000 := by
  constructor
  · decide
  · decide

/-- C2 amended: an Identity (None) transform is accepted exactly when its
option is absent; a non-Identity transform is accepted exactly for a
float-typed option within 1e-5 of its truncation toward zero int(option),
which is then written back over the option; any other option - a float
more than 1e-5 above its truncation (even one within 1e-5 of the next
integer), or a value that is not a float - halts with a
ConfigurationError. -/
theorem transform_option_validation (spec : RegSpec) :
    (spec.transform = "None" →
        (checkOneRegressor spec = .ok spec ↔ spec.option = .pynone) ∧
        (spec.option ≠ .pynone →
            checkOneRegressor spec = .error (.configError msgNoneOption))) ∧
    (spec.transform ∈ ["Lagged", "MVA", "Power", "Diff", "ChangeRate"] →
        (∀ q, spec.option = .pyfloat q →
            (|(pytrunc q : ℚ) - q| ≤ 1 / 100000 →
                checkOneRegressor spec = .ok ⟨spec.transform, .pyint (pytrunc q)⟩) ∧
            (1 / 100000 < |(pytrunc q : ℚ) - q| →
                checkOneRegressor spec = .error (.configError msgIntOption))) ∧
        ((∀ q, spec.option ≠ .pyfloat q) →
            checkOneRegressor spec = .error (.configError msgIntOption))) := by
  obtain ⟨tr, opt⟩ := spec
  constructor
  · rintro rfl
    rw [checkOneRegressor_none opt]
    constructor
    · by_cases h : opt = .pynone
      · simp [h]
      · simp only [if_neg h]
        constructor
        · intro he
          exact absurd he (by simp)
        · intro h2
          exact absurd h2 h
    · intro h
      rw [if_neg h]
  · intro htr
    rw [checkOneRegressor_five tr htr opt]
    constructor
    · rintro q rfl
      dsimp only
      constructor
      · intro hle
        rw [if_neg (not_lt.mpr hle)]
      · intro hgt
        rw [if_pos hgt]
    · intro hnf
      cases opt with
      | pyfloat q => exact absurd rfl (hnf q)
      | pynone => rfl
      | pyint n => rfl
      | pystr s => rfl

/-- C2 witness: a float option exactly 2 for Lagged is accepted and
normalized to the int 2; an option on a None transform halts; a non-float
option for MVA halts. -/
theorem transform_option_validation_witness :
    checkOneRegressor ⟨"Lagged", .pyfloat 2⟩ = .ok ⟨"Lagged", .pyint (pytrunc 2)⟩ ∧
    checkOneRegressor ⟨"None", .pyfloat 1⟩ = .error (.configError msgNoneOption) ∧
    checkOneRegressor ⟨"MVA", .pynone⟩ = .error (.configError msgIntOption) :=
  ⟨(((transform_option_validation ⟨"Lagged", .pyfloat 2⟩).2 (by decide)).1 2
      rfl).1 (by rw [pytrunc, if_pos (by norm_num)]; norm_num),
   ((transform_option_validation ⟨"None", .pyfloat 1⟩).1 rfl).2 (by decide),
   ((transform_option_validation ⟨"MVA", .pynone⟩).2 (by decide)).2
     (fun q h => by cases h)⟩

/-! ## Helper lemmas on the difference and percent-change columns -/

lemma seriesGet_eq_getElem (x : List FVal) (t : ℕ) (h : t < x.length) :
    seriesGet x t = x[t] := by
  simp [seriesGet, List.getD_eq_getElem?_getD, List.getElem?_eq_getElem h]

lemma shiftCol_length (k : ℤ) (x : List FVal) : (shiftCol k x).length = x.length := by
  simp [shiftCol]

lemma ffillFrom_length (v : FVal) (x : List FVal) :
    (ffillFrom v x).length = x.length := by
  induction x generalizing v with
  | nil => rfl
  | cons a rest ih => simp [ffillFrom, ih]

lemma ffill_length (x : List FVal) : (ffill x).length = x.length :=
  ffillFrom_length _ x

lemma shiftCol_get_le (k : ℕ) (x : List FVal) (t : ℕ) (h : t < x.length)
    (hk : k ≤ t) : seriesGet (shiftCol (k : ℤ) x) t = seriesGet x (t - k) := by
  rw [shiftCol_get _ _ _ h, if_pos (by omega)]
  congr 1
  omega

lemma shiftCol_get_lt (k : ℕ) (x : List FVal) (t : ℕ) (h : t < x.length)
    (hk : t < k) : seriesGet (shiftCol (k : ℤ) x) t = .nan := by
  rw [shiftCol_get _ _ _ h, if_neg (by omega)]

lemma diffCol_get (k : ℤ) (x : List FVal) (t : ℕ) (h : t < x.length) :
    seriesGet (diffCol k x) t =
      FVal.sub (seriesGet x t) (seriesGet (shiftCol k x) t) := by
  have hs : (shiftCol k x).length = x.length := shiftCol_length k x
  have hd : t < (diffCol k x).length := by
    simp [diffCol, List.length_zipWith, hs]
    omega
  rw [seriesGet_eq_getElem _ _ hd, seriesGet_eq_getElem x t h,
    seriesGet_eq_getElem _ _ (by omega)]
  exact List.getElem_zipWith

lemma seriesGet_map (f : FVal → FVal) (x : List FVal) (t : ℕ) (h : t < x.length) :
    seriesGet (x.map f) t = f (seriesGet x t) := by
  rw [seriesGet_eq_getElem _ _ (by simpa using h), seriesGet_eq_getElem x t h,
    List.getElem_map]

lemma pctChangeCol_get (k : ℤ) (x : List FVal) (t : ℕ) (h : t < x.length) :
    seriesGet (pctChangeCol k x) t =
      FVal.sub
        (FVal.div (seriesGet (ffill x) t) (seriesGet (shiftCol k (ffill x)) t))
        (.fin 1) := by
  have hf : (ffill x).length = x.length := ffill_length x
  have hs : (shiftCol k (ffill x)).length = x.length := by
    rw [shiftCol_length, hf]
  have hz : t < (List.zipWith FVal.div (ffill x) (shiftCol k (ffill x))).length := by
    simp [List.length_zipWith, hf, hs]
    omega
  have hp : t < (pctChangeCol k x).length := by
    simpa [pctChangeCol] using hz
  rw [seriesGet_eq_getElem _ _ hp, seriesGet_eq_getElem _ _ (by omega),
    seriesGet_eq_getElem _ _ (by omega)]
  simp only [pctChangeCol, List.getElem_map, List.getElem_zipWith]

/-- C3 counterexample: pct_change does not turn a missing source value into
a missing output.  On the series [1, missing, 3] with lag 1, the source at
row 1 is missing, yet the output at row 2 is 2 (pandas forward-fills before
dividing); and a zero denominator yields infinity, not a missing value. -/
theorem pctchange_missing_not_propagated :
    seriesGet [FVal.fin 1, FVal.nan, FVal.fin 3] 1 = FVal.nan ∧
    seriesGet (pctChangeCol 1 [FVal.fin 1, FVal.nan, FVal.fin 3]) 2 = FVal.fin 2 ∧
    seriesGet (pctChangeCol 1 [FVal.fin 0, FVal.fin 5]) 1 = FVal.inf := by
  refine ⟨rfl, ?_, ?_⟩ <;> decide

/-- C3 amended: Difference(k) at row t is x[t] - x[t-k] (missing below row
k, and missing source cells propagate); PercentChange(k) works on the
forward-filled series y = ffill x: its row t is (y[t] - y[t-k]) / y[t-k],
which is a signed infinity - not a missing value - when y[t-k] = 0 and
y[t] is nonzero, NaN only for 0/0 or where forward fill leaves t-k
missing; a missing source cell propagates missing through Identity,
Lagged, Difference, MovingAverage and Power with a nonzero exponent, but
not through PercentChange (forward fill pads it) and not through Power
with exponent 0, which maps even a missing cell to 1. -/
theorem difference_pctchange_semantics (k : ℕ) (x : List FVal) (t : ℕ)
    (ht : t < x.length) :
    (∀ a b, k ≤ t → seriesGet x t = .fin a → seriesGet x (t - k) = .fin b →
        seriesGet (diffCol (k : ℤ) x) t = .fin (a - b)) ∧
    (t < k → seriesGet (diffCol (k : ℤ) x) t = .nan) ∧
    (∀ a b, k ≤ t → seriesGet (ffill x) t = .fin a →
        seriesGet (ffill x) (t - k) = .fin b →
        seriesGet (pctChangeCol (k : ℤ) x) t =
          if b = 0 then (if a = 0 then .nan else if 0 < a then .inf else .ninf)
          else .fin ((a - b) / b)) ∧
    (k ≤ t → seriesGet (ffill x) (t - k) = .nan →
        seriesGet (pctChangeCol (k : ℤ) x) t = .nan) ∧
    (seriesGet x t = .nan →
        seriesGet (identityCol x) t = .nan ∧
        seriesGet (diffCol (k : ℤ) x) t = .nan ∧
        (∀ w, 1 ≤ w → seriesGet (mvaCol w x) t = .nan) ∧
        ∀ m : ℤ, m ≠ 0 → seriesGet (powCol m x) t = .nan) ∧
    (k ≤ t → seriesGet x (t - k) = .nan →
        seriesGet (shiftCol (k : ℤ) x) t = .nan) ∧
    seriesGet (powCol 0 x) t = .fin 1 := by
  have hf : (ffill x).length = x.length := ffill_length x
  refine ⟨?_, ?_, ?_, ?_, ?_, ?_, ?_⟩
  · intro a b hk ha hb
    rw [diffCol_get _ _ _ ht, shiftCol_get_le k x t ht hk, ha, hb]
    rfl
  · intro hk
    rw [diffCol_get _ _ _ ht, shiftCol_get_lt k x t ht hk]
    cases seriesGet x t <;> rfl
  · intro a b hk ha hb
    rw [pctChangeCol_get _ _ _ ht, shiftCol_get_le k (ffill x) t (by omega) hk,
      ha, hb]
    by_cases hb0 : b = 0
    · subst hb0
      rw [if_pos rfl]
      by_cases ha0 : a = 0
      · subst ha0
        simp [FVal.div, FVal.sub]
      · rcases lt_trichotomy 0 a with hpos | hzero | hneg
        · rw [if_neg ha0, if_pos hpos]
          simp [FVal.div, ha0, hpos, FVal.sub]
        · exact absurd hzero.symm ha0
        · rw [if_neg ha0, if_neg (not_lt.mpr (le_of_lt hneg))]
          simp [FVal.div, ha0, not_lt.mpr (le_of_lt hneg), FVal.sub]
    · rw [if_neg hb0]
      rw [show FVal.div (.fin a) (.fin b) = .fin (a / b) from by simp [FVal.div, hb0]]
      show FVal.fin (a / b - 1) = _
      congr 1
      field_simp
  · intro hk hb
    rw [pctChangeCol_get _ _ _ ht, shiftCol_get_le k (ffill x) t (by omega) hk, hb]
    cases seriesGet (ffill x) t <;> rfl
  · intro hx
    refine ⟨hx, ?_, ?_, ?_⟩
    · rw [diffCol_get _ _ _ ht, hx]
      cases seriesGet (shiftCol (k : ℤ) x) t <;> rfl
    · intro w hw
      rw [mvaCol_get _ _ _ ht]
      by_cases hlt : t + 1 < w
      · rw [if_pos hlt]
      · rw [if_neg hlt, if_pos ?_]
        rw [List.any_eq_true]
        refine ⟨seriesGet x (t - 0), ?_, ?_⟩
        · exact List.mem_map.mpr ⟨0, List.mem_range.mpr (by omega), rfl⟩
        · rw [Nat.sub_zero, hx]
          rfl
    · intro m hm
      show seriesGet (x.map (fun v => FVal.powInt v m)) t = _
      rw [seriesGet_map _ _ _ ht, hx]
      simp [FVal.powInt, hm]
  · intro hk hb
    rw [shiftCol_get_le k x t ht hk, hb]
  · show seriesGet (x.map (fun v => FVal.powInt v 0)) t = _
    rw [seriesGet_map _ _ _ ht]
    rfl

/-- C3 witness: a difference with lag 1, a percent change with lag 1 on a
fully observed series, and Power with exponent 0 on a missing cell. -/
theorem difference_pctchange_semantics_witness :
    seriesGet (diffCol 1 [FVal.fin 1, FVal.fin 4]) 1 = FVal.fin (4 - 1) ∧
    seriesGet (pctChangeCol 1 [FVal.fin 2, FVal.fin 3]) 1 =
      FVal.fin ((3 - 2) / 2) ∧
    seriesGet (powCol 0 [FVal.nan]) 0 = FVal.fin 1 := by
  refine ⟨?_, ?_, ?_⟩
  · exact (difference_pctchange_semantics 1 [FVal.fin 1, FVal.fin 4] 1
      (by decide)).1 4 1 (by norm_num) (by decide) (by decide)
  · have h := (difference_pctchange_semantics 1 [FVal.fin 2, FVal.fin 3] 1
      (by decide)).2.2.1 3 2 (by norm_num) (by decide) (by decide)
    rw [Nat.cast_one] at h
    rw [h, if_neg (by norm_num)]
  · exact (difference_pctchange_semantics 1 [FVal.nan] 0 (by decide)).2.2.2.2.2.2

/-! ## Helper lemmas on what each validator pass may change -/

lemma checkKey_quantlist_ok (wbS : List String) (d d2 : ConfigDict)
    (h : checkKey wbS d "quantlist" = .ok d2) : d2 = d := by
  unfold checkKey at h
  rw [if_pos rfl] at h
  cases hq : d.quantlist with
  | none =>
      simp only [hq] at h
      exact Except.noConfusion h
  | some val =>
      simp only [hq] at h
      cases hc : checkQuantlist val with
      | error e =>
          simp only [hc] at h
          exact Except.noConfusion h
      | ok u =>
          simp only [hc] at h
          exact (Except.ok.inj h).symm

lemma checkKey_regressors_ok (wbS : List String) (d d2 : ConfigDict)
    (h : checkKey wbS d "regressors" = .ok d2) :
    ∃ rs rs2, d.regressors = some rs ∧ checkRegressors rs = .ok rs2 ∧
      d2 = { d with regressors := some rs2 } := by
  unfold checkKey at h
  rw [if_neg (by decide), if_pos rfl] at h
  cases hq : d.regressors with
  | none =>
      simp only [hq] at h
      exact Except.noConfusion h
  | some rs =>
      simp only [hq] at h
      cases hc : checkRegressors rs with
      | error e =>
          simp only [hc] at h
          exact Except.noConfusion h
      | ok rs2 =>
          simp only [hc] at h
          exact ⟨rs, rs2, rfl, hc, (Except.ok.inj h).symm⟩

lemma checkKey_sheet_input_ok (wbS : List String) (d d2 : ConfigDict)
    (h : checkKey wbS d "sheet_input" = .ok d2) :
    d2 = d ∨ (d.sheet_input = some none ∧
      d2 = { d with sheet_input := some (some "Output_partitions") }) := by
  unfold checkKey at h
  rw [if_neg (by decide), if_neg (by decide), if_pos rfl] at h
  rcases hq : d.sheet_input with _ | (_ | s)
  · simp only [hq] at h
    exact Except.noConfusion h
  · simp only [hq] at h
    by_cases hw : "Output_partitions" ∈ wbS
    · rw [if_pos hw] at h
      exact .inr ⟨rfl, (Except.ok.inj h).symm⟩
    · rw [if_neg hw] at h
      exact Except.noConfusion h
  · simp only [hq] at h
    exact .inl (Except.ok.inj h).symm

lemma checkKey_sheet_quantreg_ok (wbS : List String) (d d2 : ConfigDict)
    (h : checkKey wbS d "sheet_quantreg" = .ok d2) :
    d2 = d ∨ (d.sheet_quantreg = some none ∧
      d2 = { d with sheet_quantreg := some (some "Quant reg coefficients") }) := by
  unfold checkKey at h
  rw [if_neg (by decide), if_neg (by decide), if_neg (by decide), if_pos rfl] at h
  rcases hq : d.sheet_quantreg with _ | (_ | s)
  · simp only [hq] at h
    exact Except.noConfusion h
  · simp only [hq] at h
    exact .inr ⟨rfl, (Except.ok.inj h).symm⟩
  · simp only [hq] at h
    by_cases hs : s ∈ input_sheets
    · rw [if_pos hs] at h
      exact Except.noConfusion h
    · rw [if_neg hs] at h
      exact .inl (Except.ok.inj h).symm

lemma checkKey_sheet_cond_quant_ok (wbS : List String) (d d2 : ConfigDict)
    (h : checkKey wbS d "sheet_cond_quant" = .ok d2) :
    d2 = d ∨ (d.sheet_cond_quant = some none ∧
      d2 = { d with sheet_cond_quant := some (some "Conditional quantiles") }) := by
  unfold checkKey at h
  rw [if_neg (by decide), if_neg (by decide), if_neg (by decide),
    if_neg (by decide), if_pos rfl] at h
  rcases hq : d.sheet_cond_quant with _ | (_ | s)
  · simp only [hq] at h
    exact Except.noConfusion h
  · simp only [hq] at h
    exact .inr ⟨rfl, (Except.ok.inj h).symm⟩
  · simp only [hq] at h
    by_cases hs : s ∈ input_sheets
    · rw [if_pos hs] at h
      exact Except.noConfusion h
    · rw [if_neg hs] at h
      exact .inl (Except.ok.inj h).symm

lemma checkKeys_cons (wbS : List String) (d : ConfigDict) (k : String)
    (rest : List String) (d2 : ConfigDict)
    (h : checkKeys wbS d (k :: rest) = .ok d2) :
    ∃ d1, checkKey wbS d k = .ok d1 ∧ checkKeys wbS d1 rest = .ok d2 := by
  rw [checkKeys] at h
  cases hc : checkKey wbS d k with
  | error e =>
      simp only [hc] at h
      exact Except.noConfusion h
  | ok d1 =>
      simp only [hc] at h
      exact ⟨d1, rfl, h⟩

/-- The relation between a regressor entry before and after the validator:
name and transform stay, the option stays or is normalized to int(option). -/
def entryShape (p p2 : String × RegSpec) : Prop :=
  p2.1 = p.1 ∧ p2.2.transform = p.2.transform ∧
    (p2.2.option = p.2.option ∨
      ∃ q, p.2.option = .pyfloat q ∧ p2.2.option = .pyint (pytrunc q))

lemma checkOneRegressor_shape (spec spec2 : RegSpec)
    (h : checkOneRegressor spec = .ok spec2) :
    spec2.transform = spec.transform ∧
      (spec2.option = spec.option ∨
        ∃ q, spec.option = .pyfloat q ∧ spec2.option = .pyint (pytrunc q)) := by
  unfold checkOneRegressor at h
  split at h
  · exact Except.noConfusion h
  · split at h
    · exact Except.noConfusion h
    · split at h
      · cases hopt : spec.option with
        | pyfloat q =>
            simp only [hopt] at h
            split at h
            · exact Except.noConfusion h
            · have h2 := (Except.ok.inj h).symm
              subst h2
              exact ⟨rfl, .inr ⟨q, rfl, rfl⟩⟩
        | pynone =>
            simp only [hopt] at h
            exact Except.noConfusion h
        | pyint n =>
            simp only [hopt] at h
            exact Except.noConfusion h
        | pystr s =>
            simp only [hopt] at h
            exact Except.noConfusion h
      · have h2 := (Except.ok.inj h).symm
        subst h2
        exact ⟨rfl, .inl rfl⟩

lemma checkRegressors_shape (rs : List (String × RegSpec)) :
    ∀ rs2, checkRegressors rs = .ok rs2 → List.Forall₂ entryShape rs rs2 := by
  induction rs with
  | nil =>
      intro rs2 h
      cases (Except.ok.inj h)
      exact .nil
  | cons p rest ih =>
      obtain ⟨name, spec⟩ := p
      intro rs2 h
      unfold checkRegressors at h
      cases hc : checkOneRegressor spec with
      | error e =>
          simp only [hc] at h
          exact Except.noConfusion h
      | ok spec2 =>
          simp only [hc] at h
          cases hr : checkRegressors rest with
          | error e =>
              simp only [hr] at h
              exact Except.noConfusion h
          | ok rest2 =>
              simp only [hr] at h
              cases (Except.ok.inj h)
              exact .cons ⟨rfl, (checkOneRegressor_shape spec spec2 hc).1,
                (checkOneRegressor_shape spec spec2 hc).2⟩ (ih rest2 hr)

/-- C4 amended: the validator is not free of side effects on the caller's
record; when it completes it has normalized every regressor option to
int(option) in place and has written the default output sheet names over
unset sheet cells, and these are the only changes - the quantile list, the
regressor names and their transform kinds, and every explicitly given
sheet name are unchanged. -/
theorem check_parameters_frame (wbS : List String) (d d2 : ConfigDict)
    (h : (checkParametersQuantfit wbS d).2 = .ok d2) :
    d2.quantlist = d.quantlist ∧
    (∃ rs rs2, d.regressors = some rs ∧ d2.regressors = some rs2 ∧
        List.Forall₂ entryShape rs rs2) ∧
    (d2.sheet_input = d.sheet_input ∨
        (d.sheet_input = some none ∧
          d2.sheet_input = some (some "Output_partitions"))) ∧
    (d2.sheet_quantreg = d.sheet_quantreg ∨
        (d.sheet_quantreg = some none ∧
          d2.sheet_quantreg = some (some "Quant reg coefficients"))) ∧
    (d2.sheet_cond_quant = d.sheet_cond_quant ∨
        (d.sheet_cond_quant = some none ∧
          d2.sheet_cond_quant = some (some "Conditional quantiles"))) := by
  have h0 : checkKeys wbS d
      ["quantlist", "regressors", "sheet_input", "sheet_quantreg",
        "sheet_cond_quant"] = .ok d2 := h
  obtain ⟨d1, h1, h0⟩ := checkKeys_cons _ _ _ _ _ h0
  obtain ⟨dB, h2, h0⟩ := checkKeys_cons _ _ _ _ _ h0
  obtain ⟨dC, h3, h0⟩ := checkKeys_cons _ _ _ _ _ h0
  obtain ⟨dD, h4, h0⟩ := checkKeys_cons _ _ _ _ _ h0
  obtain ⟨dE, h5, h0⟩ := checkKeys_cons _ _ _ _ _ h0
  rw [checkKeys] at h0
  have hE : dE = d2 := Except.ok.inj h0
  have e1 : d1 = d := checkKey_quantlist_ok wbS d d1 h1
  rw [e1] at h2
  obtain ⟨rs, rs2, hrs, hrc, e2⟩ := checkKey_regressors_ok wbS d dB h2
  rw [e2] at h3
  have e3 := checkKey_sheet_input_ok wbS _ dC h3
  have e4 := checkKey_sheet_quantreg_ok wbS dC dD h4
  have e5 := checkKey_sheet_cond_quant_ok wbS dD dE h5
  have hfor := checkRegressors_shape rs rs2 hrc
  rw [← hE]
  clear h h0 h1 h2 h3 h4 h5 hrc hE e1 e2
  rcases e3 with rfl | ⟨hu3, rfl⟩ <;>
    rcases e4 with rfl | ⟨hu4, rfl⟩ <;>
      rcases e5 with rfl | ⟨hu5, rfl⟩ <;>
        exact ⟨by simp, ⟨rs, rs2, hrs, by simp, hfor⟩,
          by simp_all, by simp_all, by simp_all⟩

/-- A valid configuration whose sheet_quantreg cell was left empty. -/
def exampleDict : ConfigDict :=
  { quantlist := some [1/10, 1/4, 1/2, 3/4, 9/10],
    regressors := some [],
    sheet_input := some (some "Output_partitions"),
    sheet_quantreg := some none,
    sheet_cond_quant := some (some "My quantfit output") }

/-- exampleDict after the validator has written the default name. -/
def exampleDictChecked : ConfigDict :=
  { exampleDict with sheet_quantreg := some (some "Quant reg coefficients") }

/-- C4 counterexample: the validator completes on exampleDict, but the
record it leaves behind differs from the caller's input - the unset
sheet_quantreg cell now holds the default output sheet name - so the
validator is not side-effect free on its input. -/
theorem check_parameters_mutates :
    (checkParametersQuantfit [] exampleDict).2 = .ok exampleDictChecked ∧
    exampleDictChecked ≠ exampleDict := by
  constructor
  · decide
  · decide

/-- C4 witness: the frame theorem applied to exampleDict. -/
theorem check_parameters_frame_witness :
    exampleDictChecked.quantlist = exampleDict.quantlist ∧
    (∃ rs rs2, exampleDict.regressors = some rs ∧
        exampleDictChecked.regressors = some rs2 ∧
        List.Forall₂ entryShape rs rs2) ∧
    (exampleDictChecked.sheet_input = exampleDict.sheet_input ∨
        (exampleDict.sheet_input = some none ∧
          exampleDictChecked.sheet_input = some (some "Output_partitions"))) ∧
    (exampleDictChecked.sheet_quantreg = exampleDict.sheet_quantreg ∨
        (exampleDict.sheet_quantreg = some none ∧
          exampleDictChecked.sheet_quantreg =
            some (some "Quant reg coefficients"))) ∧
    (exampleDictChecked.sheet_cond_quant = exampleDict.sheet_cond_quant ∨
        (exampleDict.sheet_cond_quant = some none ∧
          exampleDictChecked.sheet_cond_quant =
            some (some "Conditional quantiles"))) :=
  check_parameters_frame [] exampleDict exampleDictChecked (by decide)

/-- A configuration dict lacking the quantlist key, all other keys given. -/
def missingKeyDict : ConfigDict :=
  { quantlist := none,
    regressors := some [],
    sheet_input := some (some "Output_partitions"),
    sheet_quantreg := some (some "Out one"),
    sheet_cond_quant := some (some "Out two") }

/-- C9 counterexample: with quantlist absent the validator emits only the
non-halting presence message, but the per-key loop then stops the pipeline
anyway - its read of the missing key raises a KeyError, so validation does
not continue past the absent key. -/
theorem missing_key_stops_pipeline :
    (checkParametersQuantfit [] missingKeyDict).1 =
      ["key quantlist not found in dict_input_quantfit"] ∧
    (checkParametersQuantfit [] missingKeyDict).2 =
      .error (.keyError "quantlist") := by
  constructor
  · decide
  · decide

/-- C9 amended: a missing required key (here quantlist) triggers only a
non-halting message in the presence loop, but the validator then raises an
unhandled KeyError when the per-key loop reads the absent key, so the
pipeline still stops - through a KeyError rather than a
ConfigurationError. -/
theorem missing_key_behavior (wbS : List String) (d : ConfigDict)
    (h : d.quantlist = none) :
    "key quantlist not found in dict_input_quantfit" ∈
      (checkParametersQuantfit wbS d).1 ∧
    (checkParametersQuantfit wbS d).2 = .error (.keyError "quantlist") := by
  constructor
  · show _ ∈ missingKeyMsgs d
    unfold missingKeyMsgs
    apply List.mem_map.mpr
    refine ⟨"quantlist", ?_, rfl⟩
    apply List.mem_filter.mpr
    refine ⟨by simp [keysQuantfit], ?_⟩
    simp [hasKey, h]
  · show checkKeys wbS d keysQuantfit = _
    have hk : checkKey wbS d "quantlist" = .error (.keyError "quantlist") := by
      unfold checkKey
      rw [if_pos rfl]
      simp only [h]
    unfold keysQuantfit
    rw [checkKeys]
    simp only [hk]

/-- C9 witness: the amended behaviour at the concrete dict. -/
theorem missing_key_behavior_witness :
    "key quantlist not found in dict_input_quantfit" ∈
      (checkParametersQuantfit [] missingKeyDict).1 ∧
    (checkParametersQuantfit [] missingKeyDict).2 =
      .error (.keyError "quantlist") :=
  missing_key_behavior [] missingKeyDict rfl

/-! ## Helper lemmas on the synthesized regressor names -/

lemma charDigit_digitChar : ∀ d, d < 10 → charDigit (digitChar d) = d := by
  decide

lemma digitChar_ne_underscore : ∀ d, d < 10 → digitChar d ≠ '_' := by
  decide

lemma natStrVal_natStrGo : ∀ fuel n, n ≤ fuel → natStrVal (natStrGo fuel n) = n := by
  intro fuel
  induction fuel with
  | zero =>
      intro n hn
      interval_cases n
      rfl
  | succ fuel ih =>
      intro n hn
      by_cases h0 : n = 0
      · subst h0
        rfl
      · rw [natStrGo, if_neg h0]
        rw [natStrVal, List.foldl_append]
        have hdiv : n / 10 ≤ fuel := by omega
        have := ih (n / 10) hdiv
        rw [natStrVal] at this
        rw [this, List.foldl]
        rw [charDigit_digitChar (n % 10) (by omega)]
        simp only [List.foldl]
        omega

lemma natStrVal_natStr (n : ℕ) : natStrVal (natStr n) = n := by
  by_cases h0 : n = 0
  · subst h0
    rfl
  · rw [natStr, if_neg h0]
    exact natStrVal_natStrGo n n le_rfl

lemma natStr_inj {n m : ℕ} (h : natStr n = natStr m) : n = m := by
  have := natStrVal_natStr n
  rw [h, natStrVal_natStr] at this
  exact this.symm

lemma natStrGo_no_underscore : ∀ fuel n, '_' ∉ natStrGo fuel n := by
  intro fuel
  induction fuel with
  | zero => intro n; simp [natStrGo]
  | succ fuel ih =>
      intro n
      by_cases h0 : n = 0
      · simp [natStrGo, h0]
      · rw [natStrGo, if_neg h0]
        intro hmem
        rcases List.mem_append.mp hmem with hl | hr
        · exact ih (n / 10) hl
        · rcases List.mem_singleton.mp hr with h
          exact digitChar_ne_underscore (n % 10) (by omega) h.symm

lemma natStr_no_underscore (n : ℕ) : '_' ∉ natStr n := by
  by_cases h0 : n = 0
  · subst h0
    decide
  · rw [natStr, if_neg h0]
    exact natStrGo_no_underscore n n

lemma append_underscore_inj :
    ∀ (a b t1 t2 : List Char), '_' ∉ t1 → '_' ∉ t2 →
      a ++ '_' :: t1 = b ++ '_' :: t2 → a = b ∧ t1 = t2 := by
  intro a
  induction a with
  | nil =>
      intro b t1 t2 h1 h2 heq
      cases b with
      | nil =>
          simp only [List.nil_append] at heq
          exact ⟨rfl, (List.cons.inj heq).2⟩
      | cons c bs =>
          simp only [List.nil_append, List.cons_append] at heq
          obtain ⟨hc, ht⟩ := List.cons.inj heq
          exfalso
          apply h1
          rw [ht]
          exact List.mem_append.mpr (.inr (List.mem_cons_self _ _))
  | cons c as ih =>
      intro b t1 t2 h1 h2 heq
      cases b with
      | nil =>
          simp only [List.nil_append, List.cons_append] at heq
          obtain ⟨hc, ht⟩ := List.cons.inj heq
          exfalso
          apply h2
          rw [← ht]
          exact List.mem_append.mpr (.inr (List.mem_cons_self _ _))
      | cons c2 bs =>
          simp only [List.cons_append] at heq
          obtain ⟨hc, ht⟩ := List.cons.inj heq
          obtain ⟨hab, ht12⟩ := ih bs t1 t2 h1 h2 ht
          exact ⟨by rw [hc, hab], ht12⟩

lemma synthName_group (r : List Char) (i : ℕ) (t : List Char) :
    synthName r i t = ((r ++ ['_', 't', 'r', 'a', 'n', 's']) ++ '_' :: natStr i)
      ++ '_' :: t := by
  show r ++ "_trans_".data ++ natStr i ++ "_".data ++ t = _
  rw [show "_trans_".data = ['_', 't', 'r', 'a', 'n', 's'] ++ ['_'] from rfl,
    show "_".data = ['_'] from rfl]
  simp [List.append_assoc]

lemma synthName_inj {rA rB : List Char} {i j : ℕ} {tA tB : List Char}
    (hA : '_' ∉ tA) (hB : '_' ∉ tB)
    (h : synthName rA i tA = synthName rB j tB) :
    rA = rB ∧ i = j ∧ tA = tB := by
  rw [synthName_group, synthName_group] at h
  obtain ⟨h1, ht⟩ := append_underscore_inj _ _ _ _ hA hB h
  obtain ⟨h2, hn⟩ := append_underscore_inj _ _ _ _ (natStr_no_underscore i)
    (natStr_no_underscore j) h1
  refine ⟨List.append_cancel_right h2, natStr_inj hn, ht⟩

lemma mem_declNames {n : List Char} :
    ∀ (decls : List RegDecl) (i : ℕ), n ∈ declNames i decls →
      ∃ j d, i ≤ j ∧ d ∈ decls ∧ n = synthName d.regressor j d.transform := by
  intro decls
  induction decls with
  | nil => intro i h; simp [declNames] at h
  | cons d rest ih =>
      intro i h
      rcases List.mem_cons.mp h with h0 | h0
      · exact ⟨i, d, le_rfl, List.mem_cons_self _ _, h0⟩
      · obtain ⟨j, d2, hij, hd2, hn⟩ := ih (i + 1) h0
        exact ⟨j, d2, by omega, List.mem_cons_of_mem _ hd2, hn⟩

lemma declNames_nodup (decls : List RegDecl)
    (hu : ∀ d ∈ decls, '_' ∉ d.transform) :
    ∀ i, (declNames i decls).Nodup := by
  induction decls with
  | nil => intro i; simp [declNames]
  | cons d rest ih =>
      intro i
      rw [declNames]
      refine List.nodup_cons.mpr ⟨?_, ih (fun d2 h2 =>
        hu d2 (List.mem_cons_of_mem _ h2)) (i + 1)⟩
      intro hmem
      obtain ⟨j, d2, hij, hd2, hn⟩ := mem_declNames rest (i + 1) hmem
      obtain ⟨-, hj, -⟩ := synthName_inj (hu d (List.mem_cons_self _ _))
        (hu d2 (List.mem_cons_of_mem _ hd2)) hn
      omega

lemma dictInsert_fresh {β : Type} (k : List Char) (v : β)
    (l : List (List Char × β)) (h : k ∉ l.map Prod.fst) :
    dictInsert k v l = l ++ [(k, v)] := by
  induction l with
  | nil => rfl
  | cons p rest ih =>
      rw [dictInsert]
      rw [if_neg ?_]
      · rw [ih (fun hm => h (List.mem_cons_of_mem _ hm))]
        rfl
      · intro hk
        exact h (List.mem_cons.mpr (.inl hk.symm))

lemma buildRegressorsAux_keys :
    ∀ (decls : List RegDecl) (i : ℕ) (acc : List (List Char × (List Char × OptVal))),
      (declNames i decls).Nodup →
      (∀ n ∈ declNames i decls, n ∉ acc.map Prod.fst) →
      (buildRegressorsAux i acc decls).map Prod.fst =
        acc.map Prod.fst ++ declNames i decls := by
  intro decls
  induction decls with
  | nil =>
      intro i acc hnd hfresh
      simp [buildRegressorsAux, declNames]
  | cons d rest ih =>
      intro i acc hnd hfresh
      rw [buildRegressorsAux]
      have hname : synthName d.regressor i d.transform ∉ acc.map Prod.fst :=
        hfresh _ (by rw [declNames]; exact List.mem_cons_self _ _)
      rw [dictInsert_fresh _ _ _ hname]
      rw [declNames] at hnd hfresh ⊢
      have hnd2 := List.nodup_cons.mp hnd
      rw [ih (i + 1) _ hnd2.2 ?_]
      · simp [List.append_assoc]
      · intro n hn
        rw [List.map_append]
        intro hmem
        rcases List.mem_append.mp hmem with hl | hr
        · exact hfresh n (List.mem_cons_of_mem _ hn) hl
        · simp only [List.map_cons, List.map_nil, List.mem_singleton] at hr
          exact hnd2.1 (hr ▸ hn)

lemma transform_kinds_chars_no_underscore :
    ∀ t ∈ transform_kinds_chars, '_' ∉ t := by
  decide

/-- C8: with transform kinds drawn from the pulldown menu, the synthesized
feature keys (series name + the _trans_ tag + the ordinal + the kind) are
pairwise distinct even when the same series and transform repeat, so the
dict writes of read_parameters_quantfit never collide; and the key list
run_quantfit iterates over equals the synthesized names in declaration
order. -/
theorem regressor_names_distinct_ordered (decls : List RegDecl)
    (h : ∀ d ∈ decls, d.transform ∈ transform_kinds_chars) :
    (regressorKeys (buildRegressors decls)).Nodup ∧
    regressorKeys (buildRegressors decls) = declNames 0 decls := by
  have hu : ∀ d ∈ decls, '_' ∉ d.transform := fun d hd =>
    transform_kinds_chars_no_underscore _ (h d hd)
  have hnd := declNames_nodup decls hu 0
  have hkeys := buildRegressorsAux_keys decls 0 [] hnd (by simp)
  rw [List.map_nil, List.nil_append] at hkeys
  refine ⟨?_, hkeys⟩
  rw [show regressorKeys (buildRegressors decls) =
    (buildRegressorsAux 0 [] decls).map Prod.fst from rfl, hkeys]
  exact hnd

/-- C8 witness: the same series and transform declared twice still yields
two distinct keys, in declaration order. -/
theorem regressor_names_distinct_ordered_witness :
    (regressorKeys (buildRegressors
      [⟨"GDP".data, "Lagged".data, .pyfloat 1⟩,
       ⟨"GDP".data, "Lagged".data, .pyfloat 1⟩])).Nodup ∧
    regressorKeys (buildRegressors
      [⟨"GDP".data, "Lagged".data, .pyfloat 1⟩,
       ⟨"GDP".data, "Lagged".data, .pyfloat 1⟩]) =
      declNames 0
        [⟨"GDP".data, "Lagged".data, .pyfloat 1⟩,
         ⟨"GDP".data, "Lagged".data, .pyfloat 1⟩] :=
  regressor_names_distinct_ordered
    [⟨"GDP".data, "Lagged".data, .pyfloat 1⟩,
     ⟨"GDP".data, "Lagged".data, .pyfloat 1⟩] (by decide)

end RatReducible
